import Mathlib

/-!
Verification development for the Across analytics event-log decoders.

The Python sources are shallowly embedded over `List Char` (hex text) and
`Nat`/`Int` (exact integers).  Python string slicing, `int(s, 16)` parsing,
and IEEE-754 double rounding of integers are modelled explicitly so that
the decoder functions below mirror the source scripts line by line.
-/

/-! ## Hexadecimal characters and big-endian values -/

/-- Is `c` one of `0-9`, `a-f`, `A-F`? (the characters `int(-, 16)` accepts
as digits). -/
def isHexDigitB (c : Char) : Bool :=
  (48 ≤ c.toNat && c.toNat ≤ 57) || (97 ≤ c.toNat && c.toNat ≤ 102) ||
    (65 ≤ c.toNat && c.toNat ≤ 70)

/-- Numeric value of a hex digit (0 for non-digits; callers guard). -/
def hexVal (c : Char) : Nat :=
  if 48 ≤ c.toNat && c.toNat ≤ 57 then c.toNat - 48
  else if 97 ≤ c.toNat && c.toNat ≤ 102 then c.toNat - 87
  else if 65 ≤ c.toNat && c.toNat ≤ 70 then c.toNat - 55
  else 0

/-- Big-endian value of a hex-digit string. -/
def hexListVal (l : List Char) : Nat :=
  l.foldl (fun a c => 16 * a + hexVal c) 0

/-! ## A model of Python `int(s, 16)`

Python's `int` with base 16 accepts an optional sign, an optional `0x`/`0X`
prefix, and hex digits with single underscores strictly between digits
(one underscore may also directly follow the prefix).  Anything else raises
`ValueError`, which the scripts catch and turn into `None`. -/

/-- Trailing part of a digit group: every underscore must be followed by a
digit, and no trailing underscore. -/
def hexBodyAux : List Char → Bool
  | [] => true
  | c :: rest =>
    if c = '_' then
      match rest with
      | [] => false
      | d :: rest2 => isHexDigitB d && hexBodyAux rest2
    else isHexDigitB c && hexBodyAux rest

/-- A digit group: nonempty, starts with a digit, underscores only between
digits. -/
def hexBody : List Char → Bool
  | [] => false
  | c :: rest => isHexDigitB c && hexBodyAux rest

/-- After a `0x` prefix Python allows one underscore before the digits. -/
def hexAfterPfx : List Char → Bool
  | [] => false
  | c :: rest => if c = '_' then hexBody rest else hexBody (c :: rest)

/-- Magnitude part of `int(s, 16)` (no sign): optional `0x`/`0X` prefix then
underscore-separated hex digits. -/
def pyIntHexMag (s : List Char) : Option Nat :=
  match s with
  | c0 :: c1 :: rest =>
    if c0 = '0' ∧ (c1 = 'x' ∨ c1 = 'X') then
      if hexAfterPfx rest then some (hexListVal (rest.filter (fun c => c ≠ '_'))) else none
    else
      if hexBody (c0 :: c1 :: rest) then
        some (hexListVal ((c0 :: c1 :: rest).filter (fun c => c ≠ '_')))
      else none
  | s => if hexBody s then some (hexListVal (s.filter (fun c => c ≠ '_'))) else none

/-- Model of Python `int(s, 16)`: `none` models `ValueError`. -/
def pyIntHex (s : List Char) : Option Int :=
  match s with
  | [] => none
  | c :: t =>
    if c = '+' then (pyIntHexMag t).map (fun n => (n : Int))
    else if c = '-' then (pyIntHexMag t).map (fun n => -(n : Int))
    else (pyIntHexMag (c :: t)).map (fun n => (n : Int))

/-! ## Python string slicing -/

/-- Clamp a Python slice bound (negative indices count from the end). -/
def pyIdx (n : Nat) (i : Int) : Nat :=
  if i < 0 then (max ((n : Int) + i) 0).toNat else (min i (n : Int)).toNat

/-- Python `l[a:b]` (step 1). -/
def pySlice (l : List Char) (a b : Int) : List Char :=
  (l.take (pyIdx l.length b)).drop (pyIdx l.length a)

/-- Python `s.strip()` (whitespace from both ends). -/
def pyStrip (l : List Char) : List Char :=
  ((l.dropWhile Char.isWhitespace).reverse.dropWhile Char.isWhitespace).reverse

/-- `s[2:] if s.startswith('0x') else s`, as used throughout the scripts. -/
def strip0x (s : List Char) : List Char :=
  match s with
  | '0' :: 'x' :: t => t
  | t => t

/-! ## Topic decoders (pandas scripts)

`decode_topic_uint256` and `decode_topic_address` appear verbatim in
`decoded_event_executed_relayer_refund_Root_v2.py` and
`decoded_event_filled_relay_v2.py`.  A CSV cell read by pandas is either a
string or a float NaN for an empty cell; `Cell.nan` models the latter. -/

/-- A pandas CSV cell: a string, or NaN for a missing value. -/
inductive Cell where
  | nan : Cell
  | str : List Char → Cell
deriving DecidableEq

/-- Source `decode_topic_uint256`: strip, drop `0x`, `int(-, 16)`,
returning `None` on empty/NaN/unparseable input. -/
def decode_topic_uint256 : Cell → Option Int
  | .nan => none
  | .str s =>
    if s = [] then none
    else
      let t := pyStrip s
      let h := strip0x t
      if h = [] then none else pyIntHex h

/-- Source `decode_topic_address`: strip, drop `0x`, take the lowercased
last 40 characters; `None` when fewer than 40 characters remain.  No hex
validation is performed. -/
def decode_topic_address : Cell → Option (List Char)
  | .nan => none
  | .str s =>
    if s = [] then none
    else
      let t := pyStrip s
      let h := strip0x t
      if h.length < 40 then none
      else some ('0' :: 'x' :: ((h.drop (h.length - 40)).map Char.toLower))

/-! ## ExecutedRelayerRefundRoot body decoder
(`decode_raw_data_hex` in `decoded_event_executed_relayer_refund_Root_v2.py`) -/

/-- Source `get_chunk`: the `index`-th 64-hex-char slot, `None` if the data
is too short. -/
def get_chunk (hexData : List Char) (index : Nat) : Option (List Char) :=
  if index * 64 + 64 ≤ hexData.length then some ((hexData.drop (index * 64)).take 64)
  else none

/-- Source nested `decode_uint256`: `int(chunk, 16)` with `None` on a
missing/empty chunk or `ValueError`. -/
def decode_uint256 (oc : Option (List Char)) : Option Int :=
  match oc with
  | none => none
  | some c => if c = [] then none else pyIntHex c

/-- Source nested `decode_address`: lowercased last 40 characters of the
chunk, `None` when shorter than 40. -/
def decode_address (oc : Option (List Char)) : Option (List Char) :=
  match oc with
  | none => none
  | some c =>
    if c.length < 40 then none
    else some ('0' :: 'x' :: ((c.drop (c.length - 40)).map Char.toLower))

/-- Source nested `decode_bool`: `int(chunk, 16) != 0`. -/
def decode_bool (oc : Option (List Char)) : Option Bool :=
  match oc with
  | none => none
  | some c => if c = [] then none else (pyIntHex c).map (fun v => v != 0)

/-- Element loop of `decode_uint256_array_at_offset`: read `count` 64-char
chunks from character position `base`, stopping (`break`) at the first
chunk that runs past the end, appending 0 for a chunk `int` rejects. -/
def readUintElems (hexData : List Char) (base : Int) : Nat → List Int
  | 0 => []
  | k + 1 =>
    if base + 64 > (hexData.length : Int) then []
    else
      (match pyIntHex (pySlice hexData base (base + 64)) with
       | some v => v
       | none => 0) :: readUintElems hexData (base + 64) k

/-- Source `decode_uint256_array_at_offset`: length word at byte offset,
then that many 32-byte elements, truncating at the buffer end. -/
def decode_uint256_array_at_offset (hexData : List Char) (offsetBytes : Int) : List Int :=
  let offsetChars := offsetBytes * 2
  if offsetChars ≥ (hexData.length : Int) then []
  else if offsetChars + 64 > (hexData.length : Int) then []
  else
    match pyIntHex (pySlice hexData offsetChars (offsetChars + 64)) with
    | none => []
    | some len => if len < 0 then [] else readUintElems hexData (offsetChars + 64) len.toNat

/-- Element loop of `decode_address_array_at_offset`: each element is
`'0x' + chunk[-40:].lower()`. -/
def readAddrElems (hexData : List Char) (base : Int) : Nat → List (List Char)
  | 0 => []
  | k + 1 =>
    if base + 64 > (hexData.length : Int) then []
    else
      (let chunk := pySlice hexData base (base + 64)
       '0' :: 'x' :: ((chunk.drop (chunk.length - 40)).map Char.toLower)) ::
        readAddrElems hexData (base + 64) k

/-- Source `decode_address_array_at_offset`. -/
def decode_address_array_at_offset (hexData : List Char) (offsetBytes : Int) : List (List Char) :=
  let offsetChars := offsetBytes * 2
  if offsetChars ≥ (hexData.length : Int) then []
  else if offsetChars + 64 > (hexData.length : Int) then []
  else
    match pyIntHex (pySlice hexData offsetChars (offsetChars + 64)) with
    | none => []
    | some len => if len < 0 then [] else readAddrElems hexData (offsetChars + 64) len.toNat

/-- Decoded non-indexed fields of an ExecutedRelayerRefundRoot log (the
dictionary returned by `decode_raw_data_hex`). -/
structure RefundDecoded where
  amountToReturn : Option Int
  l2TokenAddress : Option (List Char)
  deferredRefunds : Option Bool
  caller : Option (List Char)
  refundAmounts : List Int
  refundAddresses : List (List Char)
deriving DecidableEq

/-- The all-`None` dictionary returned for empty/short input. -/
def nullRefundDecoded : RefundDecoded :=
  ⟨none, none, none, none, [], []⟩

/-- Source `decode_raw_data_hex` of the refund script: six fixed head slots
plus the two offset-addressed dynamic arrays. -/
def decode_raw_data_hex (raw : List Char) : RefundDecoded :=
  if raw.length < 10 then nullRefundDecoded
  else
    let hexData := strip0x raw
    let amountToReturn := decode_uint256 (get_chunk hexData 0)
    let refundAmountsOffset := (decode_uint256 (get_chunk hexData 1)).getD 0
    let l2TokenAddress := decode_address (get_chunk hexData 2)
    let refundAddressesOffset := (decode_uint256 (get_chunk hexData 3)).getD 0
    let deferredRefunds := decode_bool (get_chunk hexData 4)
    let caller := decode_address (get_chunk hexData 5)
    let refundAmounts := decode_uint256_array_at_offset hexData refundAmountsOffset
    let refundAddresses := decode_address_array_at_offset hexData refundAddressesOffset
    ⟨amountToReturn, l2TokenAddress, deferredRefunds, caller, refundAmounts, refundAddresses⟩

/-! ## Refund expansion stage (`transform_csv` of the refund script) -/

/-- One input CSV row of the refund script. -/
structure InRow where
  block_timestamp : Cell
  transaction_hash : Cell
  topic_1 : Cell
  topic_2 : Cell
  topic_3 : Cell
  raw_data_hex : List Char
deriving DecidableEq

/-- One output row appended to `expanded_rows`. -/
structure OutRow where
  block_timestamp : Cell
  transaction_hash : Cell
  chainId : Option Int
  rootBundleId : Option Int
  leafId : Option Int
  l2TokenAddress : Option (List Char)
  refundAddress : Option (List Char)
  refundAmount : Option Int
  amountToReturn : Option Int
  deferredRefunds : Option Bool
  caller : Option (List Char)
deriving DecidableEq

/-- Build one output row: passthrough identifiers, decoded topics, decoded
scalars, and this row's refund pair. -/
def rowOf (r : InRow) (d : RefundDecoded) (ra : Option (List Char)) (rm : Option Int) : OutRow :=
  { block_timestamp := r.block_timestamp
    transaction_hash := r.transaction_hash
    chainId := decode_topic_uint256 r.topic_1
    rootBundleId := decode_topic_uint256 r.topic_2
    leafId := decode_topic_uint256 r.topic_3
    l2TokenAddress := d.l2TokenAddress
    refundAddress := ra
    refundAmount := rm
    amountToReturn := d.amountToReturn
    deferredRefunds := d.deferredRefunds
    caller := d.caller }

/-- Per-row body of the `transform_csv` loop: decode, then expand into
`min` pairs, or one metadata row when there are no pairs. -/
def expandRow (r : InRow) : List OutRow :=
  let d := decode_raw_data_hex r.raw_data_hex
  let numRefunds := min d.refundAmounts.length d.refundAddresses.length
  if numRefunds = 0 then [rowOf r d none none]
  else (List.range numRefunds).map (fun i => rowOf r d (d.refundAddresses[i]?) (d.refundAmounts[i]?))

/-- The `expanded_rows` list built by `transform_csv` over a whole batch. -/
def transformRows (rows : List InRow) : List OutRow :=
  rows.flatMap expandRow

/-! ## FundsDeposited dynamic message decoder
(`decode_message` nested in `decoded_event_fundsdepositedv2.py`; `hexData`
is the raw data with its `0x` prefix already stripped) -/

/-- The sentinel string the script returns for an absent message. -/
def noMessageSentinel : List Char := "no_message_data".toList

/-- Source `decode_message`: slot 9 is a byte offset; at that offset a
32-byte length word, then `length` raw bytes returned uninterpreted. -/
def decode_message (hexData : List Char) : List Char :=
  match get_chunk hexData 9 with
  | none => []
  | some offsetChunk =>
    if offsetChunk = [] then []
    else
      match pyIntHex offsetChunk with
      | none => []
      | some offsetBytes =>
        let offsetChars := offsetBytes * 2
        if offsetChars ≥ (hexData.length : Int) then []
        else
          let lengthHex := pySlice hexData offsetChars (offsetChars + 64)
          if lengthHex.length < 64 then []
          else
            match pyIntHex lengthHex with
            | none => []
            | some messageLengthBytes =>
              if messageLengthBytes = 0 then noMessageSentinel
              else
                let messageStart := offsetChars + 64
                let messageEnd := messageStart + messageLengthBytes * 2
                let messageHex := pySlice hexData messageStart messageEnd
                if messageHex = [] then noMessageSentinel
                else '0' :: 'x' :: messageHex

/-! ## IEEE-754 double rounding of integers

`transform_logs_from_etherscan.py` stores decoded amounts as polars
`Float64`.  For a nonnegative integer below 2^1024, conversion to a double
rounds to 53 significant bits with ties to even; `fl` is that rounding
(exact for all inputs used here, which stay far below 2^512). -/

/-- Number of bits of `n` (fuel-bounded; exact for `n < 2^512`). -/
def bitLenAux : Nat → Nat → Nat
  | 0, _ => 0
  | f + 1, n => if n = 0 then 0 else bitLenAux f (n / 2) + 1

/-- Bit length of `n` (valid for every value a 256-bit slot can hold). -/
def bitLen (n : Nat) : Nat := bitLenAux 512 n

/-- Round a nonnegative integer to the nearest IEEE-754 double
(round-half-to-even on the low `bitLen n - 53` bits). -/
def fl (n : Nat) : Nat :=
  if n < 2 ^ 53 then n
  else
    let k := bitLen n - 53
    let p := 2 ^ k
    let q := n / p
    let r := n % p
    if r * 2 < p then q * p
    else if r * 2 > p then (q + 1) * p
    else if q % 2 = 0 then q * p else (q + 1) * p

/-- IEEE double addition of two exactly-represented integers: the correctly
rounded exact sum. -/
def flAdd (a b : Nat) : Nat := fl (a + b)

/-! ## Polars slot extractors (`transform_logs_from_etherscan.py`)

`data_col` is the full `0x`-prefixed hex string; polars `str.slice` with a
nonnegative offset clamps at the end of the string. -/

/-- polars `str.slice(off, len)` for a nonnegative offset. -/
def polarsSlice (l : List Char) (off len : Nat) : List Char := (l.drop off).take len

/-- polars `str.to_integer(base=16, strict=False)`: an `Int64` value, null
(`none`) on empty/non-hex input or overflow past 2^63. -/
def polarsHexInt64 (s : List Char) : Option Nat :=
  if s ≠ [] ∧ s.all isHexDigitB ∧ hexListVal s < 2 ^ 63 then some (hexListVal s) else none

/-- Source `_slot_as_int`: fast path parses the whole 64-char slot into an
`Int64` then casts to `Float64`; on overflow, eight 32-bit chunks are
combined with `Float64` multiply-adds.  Every step is `fl`-rounded exactly
as IEEE doubles round.  The result is never null (missing chunks become 0). -/
def slot_as_int (data : List Char) (slot : Nat) : Nat :=
  let offset := 2 + slot * 64
  let fast := (polarsHexInt64 (polarsSlice data offset 64)).map fl
  let v7 := ((polarsHexInt64 (polarsSlice data offset 8)).map fl).getD 0
  let v6 := ((polarsHexInt64 (polarsSlice data (offset + 8) 8)).map fl).getD 0
  let v5 := ((polarsHexInt64 (polarsSlice data (offset + 16) 8)).map fl).getD 0
  let v4 := ((polarsHexInt64 (polarsSlice data (offset + 24) 8)).map fl).getD 0
  let v3 := ((polarsHexInt64 (polarsSlice data (offset + 32) 8)).map fl).getD 0
  let v2 := ((polarsHexInt64 (polarsSlice data (offset + 40) 8)).map fl).getD 0
  let v1 := ((polarsHexInt64 (polarsSlice data (offset + 48) 8)).map fl).getD 0
  let v0 := ((polarsHexInt64 (polarsSlice data (offset + 56) 8)).map fl).getD 0
  let large :=
    flAdd (flAdd (flAdd (flAdd (flAdd (flAdd (flAdd
      (fl (v7 * 2 ^ 224)) (fl (v6 * 2 ^ 192))) (fl (v5 * 2 ^ 160)))
      (fl (v4 * 2 ^ 128))) (fl (v3 * 2 ^ 96))) (fl (v2 * 2 ^ 64)))
      (fl (v1 * 2 ^ 32))) v0
  fast.getD large

/-- Source `_slot_as_address`: skip 24 padding chars, take 40. -/
def slot_as_address (data : List Char) (slot : Nat) : List Char :=
  '0' :: 'x' :: polarsSlice data (2 + slot * 64 + 24) 40

/-- Source `_slot_as_bytes32`: the raw 64-char slot. -/
def slot_as_bytes32 (data : List Char) (slot : Nat) : List Char :=
  '0' :: 'x' :: polarsSlice data (2 + slot * 64) 64

/-- Non-indexed fields of a FilledRelay V3 event
(`_build_filled_relay_struct`). -/
structure FilledRelayStruct where
  input_token : List Char
  output_token : List Char
  input_amount : Nat
  output_amount : Nat
  repayment_chain_id : Nat
  fill_deadline : Nat
  exclusivity_deadline : Nat
  exclusive_relayer : List Char
  depositor : List Char
  recipient : List Char
  message_hash : List Char
deriving DecidableEq

/-- Source `_build_filled_relay_struct`: slots 0-10 at fixed positions. -/
def build_filled_relay_struct (data : List Char) : FilledRelayStruct :=
  { input_token := slot_as_address data 0
    output_token := slot_as_address data 1
    input_amount := slot_as_int data 2
    output_amount := slot_as_int data 3
    repayment_chain_id := slot_as_int data 4
    fill_deadline := slot_as_int data 5
    exclusivity_deadline := slot_as_int data 6
    exclusive_relayer := slot_as_address data 7
    depositor := slot_as_address data 8
    recipient := slot_as_address data 9
    message_hash := slot_as_bytes32 data 10 }

/-- Non-indexed fields of a FundsDeposited V3 event
(`_build_funds_deposited_struct`). -/
structure FundsDepositedStruct where
  input_token : List Char
  output_token : List Char
  input_amount : Nat
  output_amount : Nat
  quote_timestamp : Nat
  fill_deadline : Nat
  exclusivity_deadline : Nat
  recipient : List Char
  exclusive_relayer : List Char
deriving DecidableEq

/-- Source `_build_funds_deposited_struct`: slots 0-8 at fixed positions. -/
def build_funds_deposited_struct (data : List Char) : FundsDepositedStruct :=
  { input_token := slot_as_address data 0
    output_token := slot_as_address data 1
    input_amount := slot_as_int data 2
    output_amount := slot_as_int data 3
    quote_timestamp := slot_as_int data 4
    fill_deadline := slot_as_int data 5
    exclusivity_deadline := slot_as_int data 6
    recipient := slot_as_address data 7
    exclusive_relayer := slot_as_address data 8 }

/-! ## eth_abi decode of the ExecutedRelayerRefundRoot body
(`_decode_executed_refund_data` in `transform_logs_from_etherscan.py`) -/

/-- Hex digit character for `n < 16` (lowercase). -/
def hexDigitOfNat (n : Nat) : Char :=
  if n < 10 then Char.ofNat (48 + n) else Char.ofNat (87 + n)

/-- `bytes.fromhex`: pairs of hex digits, failing on odd length or a
non-hex character (the failure is swallowed by the source's `except`). -/
def hexToBytes : List Char → Option (List Nat)
  | [] => some []
  | c1 :: c2 :: rest =>
    if isHexDigitB c1 && isHexDigitB c2 then
      (hexToBytes rest).map (fun bs => (16 * hexVal c1 + hexVal c2) :: bs)
    else none
  | _ => none

/-- Big-endian value of a byte string. -/
def beBytesVal (w : List Nat) : Nat := w.foldl (fun a x => 256 * a + x) 0

/-- The `i`-th 32-byte word of the buffer, if fully present. -/
def byteWordAt (b : List Nat) (i : Nat) : Option (List Nat) :=
  if 32 * i + 32 ≤ b.length then some ((b.drop (32 * i)).take 32) else none

/-- A byte sub-range, if fully present (eth_abi raises on shortfall). -/
def byteSliceAt (b : List Nat) (off len : Nat) : Option (List Nat) :=
  if off + len ≤ b.length then some ((b.drop off).take len) else none

/-- Lowercase hex rendering of a byte string. -/
def bytesToHexLower (w : List Nat) : List Char :=
  w.flatMap (fun x => [hexDigitOfNat (x / 16 % 16), hexDigitOfNat (x % 16)])

/-- eth_abi `address` word: 12 zero padding bytes then 20 address bytes,
returned as a lowercase `0x` string; non-zero padding is an error. -/
def abiDecodeAddressWord (w : List Nat) : Option (List Char) :=
  if (w.take 12).all (fun x => x == 0) then some ('0' :: 'x' :: bytesToHexLower (w.drop 12))
  else none

/-- eth_abi `bool` word: the 32-byte value must be exactly 0 or 1. -/
def abiDecodeBoolWord (w : List Nat) : Option Bool :=
  if beBytesVal w = 0 then some false
  else if beBytesVal w = 1 then some true
  else none

/-- eth_abi `uint256[]` at byte offset `off`: 32-byte length word then that
many 32-byte elements, all of which must be present. -/
def abiDecodeUintArray (b : List Nat) (off : Nat) : Option (List Nat) := do
  let lw ← byteSliceAt b off 32
  let len := beBytesVal lw
  let body ← byteSliceAt b (off + 32) (32 * len)
  some ((List.range len).map (fun i => beBytesVal ((body.drop (32 * i)).take 32)))

/-- eth_abi `address[]` at byte offset `off`, with per-element padding
validation. -/
def abiDecodeAddrArray (b : List Nat) (off : Nat) : Option (List (List Char)) := do
  let lw ← byteSliceAt b off 32
  let len := beBytesVal lw
  let body ← byteSliceAt b (off + 32) (32 * len)
  (List.range len).mapM (fun i => abiDecodeAddressWord ((body.drop (32 * i)).take 32))

/-- The struct `_decode_executed_refund_data` hands to polars
(`deferred_refunds` and `caller` are dropped at source). -/
structure ExecutedRefundStruct where
  amount_to_return : Option Nat
  l2_token_address : Option (List Char)
  refund_amounts : Option (List Char)
  refund_addresses : Option (List Char)
  refund_count : Option Nat
deriving DecidableEq

/-- The `NULL_STRUCT` template returned whenever decoding raises. -/
def nullExecutedRefundStruct : ExecutedRefundStruct := ⟨none, none, none, none, none⟩

/-- Decimal digits of `n` (fuel-bounded; exact below 10^96, far above any
u256), modelling Python `str(int)`. -/
def natDecDigitsAux : Nat → Nat → List Char
  | 0, _ => []
  | f + 1, n => if n = 0 then [] else natDecDigitsAux f (n / 10) ++ [Char.ofNat (48 + n % 10)]

/-- Python `str` of a nonnegative integer. -/
def natDecRepr (n : Nat) : List Char :=
  if n = 0 then ['0'] else natDecDigitsAux 96 n

/-- Python `",".join(parts)`. -/
def joinComma (parts : List (List Char)) : List Char := List.intercalate [','] parts

/-- Source `_decode_executed_refund_data`: `bytes.fromhex(data_hex[2:])`,
eth_abi decode of `(uint256, uint256[], address, address[], bool, address)`,
then `amount_to_return` cast through `float(...)` (the `fl` rounding) and
the arrays joined into comma-separated exact decimal/hex strings.  Any
decode failure yields `NULL_STRUCT`. -/
def decode_executed_refund_data (dataHex : List Char) : ExecutedRefundStruct :=
  match hexToBytes (dataHex.drop 2) with
  | none => nullExecutedRefundStruct
  | some b =>
    match (do
      let w0 ← byteWordAt b 0
      let w1 ← byteWordAt b 1
      let w2 ← byteWordAt b 2
      let w3 ← byteWordAt b 3
      let w4 ← byteWordAt b 4
      let w5 ← byteWordAt b 5
      let amts ← abiDecodeUintArray b (beBytesVal w1)
      let token ← abiDecodeAddressWord w2
      let addrs ← abiDecodeAddrArray b (beBytesVal w3)
      let _ ← abiDecodeBoolWord w4
      let _ ← abiDecodeAddressWord w5
      some (beBytesVal w0, amts, token, addrs)) with
    | none => nullExecutedRefundStruct
    | some (amount, amts, token, addrs) =>
      { amount_to_return := some (fl amount)
        l2_token_address := some token
        refund_amounts := some (joinComma (amts.map natDecRepr))
        refund_addresses := some (joinComma addrs)
        refund_count := some amts.length }

/-! ## Event classification and data dispatch (`decode_data`) -/

/-- The three per-chain event signature hashes handed to `decode_data`. -/
structure SigTable where
  filledRelay : List Char
  fundsDeposited : List Char
  executedRelayerRefundRoot : List Char
deriving DecidableEq

/-- Classification outcome of a log. -/
inductive EventKind where
  | filledRelay
  | fundsDeposited
  | executedRelayerRefundRoot
  | unknown
deriving DecidableEq

/-- The decoded `data` struct, tagged by event kind. -/
inductive DecodedData where
  | filledRelay (s : FilledRelayStruct)
  | fundsDeposited (s : FundsDepositedStruct)
  | executedRefund (s : ExecutedRefundStruct)
deriving DecidableEq

/-- Source `decode_data`: dispatch on `topic_0` equality against the three
configured signature hashes, `otherwise` null. -/
def decode_data (sig : SigTable) (topic0 data : List Char) : Option DecodedData :=
  if topic0 = sig.filledRelay then some (.filledRelay (build_filled_relay_struct data))
  else if topic0 = sig.fundsDeposited then some (.fundsDeposited (build_funds_deposited_struct data))
  else if topic0 = sig.executedRelayerRefundRoot then
    some (.executedRefund (decode_executed_refund_data data))
  else none

/-- The event kind assigned by the `when/then` chain, as a function of
`topic_0` alone. -/
def classifyTopic0 (sig : SigTable) (topic0 : List Char) : EventKind :=
  if topic0 = sig.filledRelay then .filledRelay
  else if topic0 = sig.fundsDeposited then .fundsDeposited
  else if topic0 = sig.executedRelayerRefundRoot then .executedRelayerRefundRoot
  else .unknown

/-- Event kind carried by a decoded-data value. -/
def kindOfData : Option DecodedData → EventKind
  | none => .unknown
  | some (.filledRelay _) => .filledRelay
  | some (.fundsDeposited _) => .fundsDeposited
  | some (.executedRefund _) => .executedRelayerRefundRoot

/-! ## Canonical u256 encoder

Modelled from the spec: `encode_u256` is the canonical 64-hex-character
big-endian encoding of a u256 named by §8's round-trip property; the
repository has decoders only, so the encoder follows the spec's words. -/

/-- Hex digits of `n` (fuel-bounded; exact below 16^64). -/
def natHexDigitsAux : Nat → Nat → List Char
  | 0, _ => []
  | f + 1, n => if n = 0 then [] else natHexDigitsAux f (n / 16) ++ [hexDigitOfNat (n % 16)]

/-- Modelled from the spec: the canonical 64-hex-character big-endian
encoding of a u256 value. -/
def encode_u256 (v : Nat) : List Char :=
  List.replicate (64 - (natHexDigitsAux 64 v).length) '0' ++ natHexDigitsAux 64 v

/-! ## Concrete logs used as witnesses and counterexamples -/

/-- Left-pad a hex string to one 64-char ABI slot. -/
def w64 (s : String) : List Char := List.replicate (64 - s.length) '0' ++ s.toList

/-- ExecutedRelayerRefundRoot data: `amountToReturn = 1000`, three refund
amounts `[100, 200, 300]` and three refund addresses. -/
def dataRefund3 : List Char :=
  ('0' :: 'x' :: []) ++ w64 "3e8" ++ w64 "c0" ++
  w64 "a0b86991c6218b36c1d19d4a2e9eb0ce3606eb48" ++ w64 "140" ++ w64 "0" ++
  w64 "c5c7b97e27a7a15e4091b64ce01a937296b8af7f" ++
  w64 "3" ++ w64 "64" ++ w64 "c8" ++ w64 "12c" ++
  w64 "3" ++ w64 "aaaaaaaaaaaaaaaaaaaaaaaaaaaaaaaaaaaaaaaa" ++
  w64 "bbbbbbbbbbbbbbbbbbbbbbbbbbbbbbbbbbbbbbbb" ++
  w64 "cccccccccccccccccccccccccccccccccccccccc"

/-- Input row carrying `dataRefund3` (chain 42161, bundle 5, leaf 2). -/
def rowRefund3 : InRow :=
  { block_timestamp := .str ("2025-01-01".toList)
    transaction_hash := .str ("0xdeadbeef".toList)
    topic_1 := .str ("0xa4b1".toList)
    topic_2 := .str ("0x05".toList)
    topic_3 := .str ("0x02".toList)
    raw_data_hex := dataRefund3 }

/-- ExecutedRelayerRefundRoot data whose parallel arrays mismatch: three
refund amounts but only two refund addresses. -/
def dataMismatch : List Char :=
  ('0' :: 'x' :: []) ++ w64 "3e8" ++ w64 "c0" ++
  w64 "a0b86991c6218b36c1d19d4a2e9eb0ce3606eb48" ++ w64 "140" ++ w64 "0" ++
  w64 "c5c7b97e27a7a15e4091b64ce01a937296b8af7f" ++
  w64 "3" ++ w64 "64" ++ w64 "c8" ++ w64 "12c" ++
  w64 "2" ++ w64 "aaaaaaaaaaaaaaaaaaaaaaaaaaaaaaaaaaaaaaaa" ++
  w64 "bbbbbbbbbbbbbbbbbbbbbbbbbbbbbbbbbbbbbbbb"

/-- Input row carrying `dataMismatch`. -/
def rowMismatch : InRow :=
  { block_timestamp := .str ("2025-01-01".toList)
    transaction_hash := .str ("0xfeedc0de".toList)
    topic_1 := .str ("0xa4b1".toList)
    topic_2 := .str ("0x05".toList)
    topic_3 := .str ("0x03".toList)
    raw_data_hex := dataMismatch }

/-- A buffer declaring a 5-element uint256 array at offset 0 while holding
only 3 complete elements. -/
def dataTrunc : List Char := w64 "5" ++ w64 "64" ++ w64 "c8" ++ w64 "12c"

/-- ExecutedRelayerRefundRoot data with one refund pair (amount 123). -/
def dataRefund1 : List Char :=
  ('0' :: 'x' :: []) ++ w64 "0" ++ w64 "c0" ++
  w64 "a0b86991c6218b36c1d19d4a2e9eb0ce3606eb48" ++ w64 "100" ++ w64 "1" ++
  w64 "c5c7b97e27a7a15e4091b64ce01a937296b8af7f" ++
  w64 "1" ++ w64 "7b" ++
  w64 "1" ++ w64 "aaaaaaaaaaaaaaaaaaaaaaaaaaaaaaaaaaaaaaaa"

/-- A well-formed one-refund input row. -/
def rowGood : InRow :=
  { block_timestamp := .str ("2025-01-02".toList)
    transaction_hash := .str ("0x1111".toList)
    topic_1 := .str ("0x01".toList)
    topic_2 := .str ("0x06".toList)
    topic_3 := .str ("0x00".toList)
    raw_data_hex := dataRefund1 }

/-- A corrupt input row whose data buffer is truncated to just `0x`. -/
def rowBad : InRow :=
  { block_timestamp := .str ("2025-01-02".toList)
    transaction_hash := .str ("0x2222".toList)
    topic_1 := .str ("0x01".toList)
    topic_2 := .str ("0x06".toList)
    topic_3 := .str ("0x01".toList)
    raw_data_hex := ('0' :: 'x' :: []) }

/-- FundsDeposited data (prefix already stripped): slot 9 holds byte offset
0x140, the length word there declares 3 bytes, content `abcdef`. -/
def dataMessage : List Char :=
  List.replicate 576 '0' ++ w64 "140" ++ w64 "3" ++ "abcdef".toList

/-- FilledRelay `data` whose slot 2 (`inputAmount`) is 2^53 + 1, a value a
`Float64` cannot represent. -/
def dataBigAmount : List Char :=
  ('0' :: 'x' :: []) ++ w64 "a0b86991c6218b36c1d19d4a2e9eb0ce3606eb48" ++
  w64 "c02aaa39b223fe8d0a0e5c4f27ead9083c756cc2" ++
  w64 "20000000000001" ++ w64 "1f4" ++ w64 "1" ++ w64 "692f6f7b" ++ w64 "0" ++
  w64 "aaaaaaaaaaaaaaaaaaaaaaaaaaaaaaaaaaaaaaaa" ++
  w64 "bbbbbbbbbbbbbbbbbbbbbbbbbbbbbbbbbbbbbbbb" ++
  w64 "cccccccccccccccccccccccccccccccccccccccc" ++
  w64 "1234567890abcdef1234567890abcdef1234567890abcdef1234567890abcdef"

/-- ExecutedRelayerRefundRoot `data` whose `amountToReturn` is 2^53 + 1,
with one refund pair. -/
def dataBigReturn : List Char :=
  ('0' :: 'x' :: []) ++ w64 "20000000000001" ++ w64 "c0" ++
  w64 "a0b86991c6218b36c1d19d4a2e9eb0ce3606eb48" ++ w64 "100" ++ w64 "1" ++
  w64 "c5c7b97e27a7a15e4091b64ce01a937296b8af7f" ++
  w64 "1" ++ w64 "7b" ++
  w64 "1" ++ w64 "aaaaaaaaaaaaaaaaaaaaaaaaaaaaaaaaaaaaaaaa"

/-- A concrete signature table with three distinct hashes. -/
def sigSample : SigTable :=
  { filledRelay := "0xf1f1".toList
    fundsDeposited := "0xd2d2".toList
    executedRelayerRefundRoot := "0xe3e3".toList }

/-! ## Helper lemmas -/

/-- A `match o with some v => v | none => d` expression is `Option.getD`. -/
theorem optionMatch_eq_getD (o : Option Int) :
    (match o with | some v => v | none => 0) = o.getD 0 := by
  cases o <;> rfl

/-- The number of rows `expandRow` emits for one input log. -/
theorem expandRow_length (r : InRow) :
    (expandRow r).length =
      max 1 (min (decode_raw_data_hex r.raw_data_hex).refundAmounts.length
        (decode_raw_data_hex r.raw_data_hex).refundAddresses.length) := by
  unfold expandRow
  by_cases h : min (decode_raw_data_hex r.raw_data_hex).refundAmounts.length
      (decode_raw_data_hex r.raw_data_hex).refundAddresses.length = 0
  · simp [h]
  · simp [h]
    omega

/-- Row `i` of a nonempty expansion pairs the `i`-th elements of the two
refund arrays. -/
theorem expandRow_getElem (r : InRow) (i : Nat)
    (h : i < min (decode_raw_data_hex r.raw_data_hex).refundAmounts.length
      (decode_raw_data_hex r.raw_data_hex).refundAddresses.length) :
    (expandRow r)[i]? = some (rowOf r (decode_raw_data_hex r.raw_data_hex)
      ((decode_raw_data_hex r.raw_data_hex).refundAddresses[i]?)
      ((decode_raw_data_hex r.raw_data_hex).refundAmounts[i]?)) := by
  unfold expandRow
  have h0 : ¬ (min (decode_raw_data_hex r.raw_data_hex).refundAmounts.length
      (decode_raw_data_hex r.raw_data_hex).refundAddresses.length = 0) := by omega
  simp only [if_neg h0, List.getElem?_map, List.getElem?_range h]
  rfl

/-! ## Claim theorems -/

/-- Claim C10: refund expansion never drops an event's metadata: every
input log yields at least one output row, and the batch's total row count
is the sum over logs of `max 1 (min |refund_amounts| |refund_addresses|)`. -/
theorem refund_expansion_row_conservation :
    (∀ r : InRow, 1 ≤ (expandRow r).length ∧
      (expandRow r).length =
        max 1 (min (decode_raw_data_hex r.raw_data_hex).refundAmounts.length
          (decode_raw_data_hex r.raw_data_hex).refundAddresses.length)) ∧
    (∀ rows : List InRow, (transformRows rows).length =
      (rows.map (fun r =>
        max 1 (min (decode_raw_data_hex r.raw_data_hex).refundAmounts.length
          (decode_raw_data_hex r.raw_data_hex).refundAddresses.length))).sum) := by
  refine ⟨fun r => ⟨?_, expandRow_length r⟩, fun rows => ?_⟩
  · rw [expandRow_length r]
    exact Nat.le_max_left _ _
  · unfold transformRows
    rw [List.length_flatMap]
    congr 1
    apply List.map_congr_left
    intro a _
    simp [expandRow_length]

/-- Claim C1: a refund log whose two arrays both have length `L > 0`
expands to exactly `L` rows, row `i` pairing `refund_addresses[i]` with
`refund_amounts[i]` and copying every scalar and topic field unchanged;
with both arrays empty it expands to exactly one row whose refund pair is
null while all scalar and topic fields are still populated. -/
theorem refund_expansion_struct (r : InRow) (L : Nat)
    (hA : (decode_raw_data_hex r.raw_data_hex).refundAmounts.length = L)
    (hB : (decode_raw_data_hex r.raw_data_hex).refundAddresses.length = L) :
    (L = 0 → (expandRow r).length = 1 ∧
      ∃ row, (expandRow r)[0]? = some row ∧
        row.refundAddress = none ∧ row.refundAmount = none ∧
        row.amountToReturn = (decode_raw_data_hex r.raw_data_hex).amountToReturn ∧
        row.l2TokenAddress = (decode_raw_data_hex r.raw_data_hex).l2TokenAddress ∧
        row.deferredRefunds = (decode_raw_data_hex r.raw_data_hex).deferredRefunds ∧
        row.caller = (decode_raw_data_hex r.raw_data_hex).caller ∧
        row.chainId = decode_topic_uint256 r.topic_1 ∧
        row.rootBundleId = decode_topic_uint256 r.topic_2 ∧
        row.leafId = decode_topic_uint256 r.topic_3 ∧
        row.block_timestamp = r.block_timestamp ∧
        row.transaction_hash = r.transaction_hash) ∧
    (0 < L → (expandRow r).length = L ∧ ∀ i, i < L →
      ∃ row, (expandRow r)[i]? = some row ∧
        row.refundAddress = (decode_raw_data_hex r.raw_data_hex).refundAddresses[i]? ∧
        row.refundAmount = (decode_raw_data_hex r.raw_data_hex).refundAmounts[i]? ∧
        row.amountToReturn = (decode_raw_data_hex r.raw_data_hex).amountToReturn ∧
        row.l2TokenAddress = (decode_raw_data_hex r.raw_data_hex).l2TokenAddress ∧
        row.deferredRefunds = (decode_raw_data_hex r.raw_data_hex).deferredRefunds ∧
        row.caller = (decode_raw_data_hex r.raw_data_hex).caller ∧
        row.chainId = decode_topic_uint256 r.topic_1 ∧
        row.rootBundleId = decode_topic_uint256 r.topic_2 ∧
        row.leafId = decode_topic_uint256 r.topic_3 ∧
        row.block_timestamp = r.block_timestamp ∧
        row.transaction_hash = r.transaction_hash) := by
  constructor
  · intro h0
    have hmin : min (decode_raw_data_hex r.raw_data_hex).refundAmounts.length
        (decode_raw_data_hex r.raw_data_hex).refundAddresses.length = 0 := by omega
    constructor
    · rw [expandRow_length r, hmin]
      simp
    · refine ⟨rowOf r (decode_raw_data_hex r.raw_data_hex) none none, ?_, by simp [rowOf]⟩
      unfold expandRow
      simp [hmin]
  · intro hL
    have hmin : min (decode_raw_data_hex r.raw_data_hex).refundAmounts.length
        (decode_raw_data_hex r.raw_data_hex).refundAddresses.length = L := by omega
    constructor
    · rw [expandRow_length r, hmin]
      simp
      omega
    · intro i hi
      refine ⟨rowOf r (decode_raw_data_hex r.raw_data_hex)
        ((decode_raw_data_hex r.raw_data_hex).refundAddresses[i]?)
        ((decode_raw_data_hex r.raw_data_hex).refundAmounts[i]?), ?_, by simp [rowOf]⟩
      exact expandRow_getElem r i (by omega)

set_option maxRecDepth 100000 in
/-- Witness for C1: the three-refund log `rowRefund3` satisfies the
hypotheses with `L = 3` and expands to exactly three rows. -/
theorem refund_expansion_struct_witness :
    (0:Nat) < 3 ∧ (expandRow rowRefund3).length = 3 :=
  ⟨by norm_num,
   ((refund_expansion_struct rowRefund3 3 (by decide) (by decide)).2 (by norm_num)).1⟩

set_option maxRecDepth 100000 in
/-- Counterexample for C4: on a log whose decoded refund arrays have
lengths 3 and 2 the script emits two output rows, not the zero rows the
claim requires (its output carries no diagnostic channel at all). -/
theorem refund_mismatch_counterexample :
    (decode_raw_data_hex rowMismatch.raw_data_hex).refundAmounts.length = 3 ∧
    (decode_raw_data_hex rowMismatch.raw_data_hex).refundAddresses.length = 2 ∧
    (expandRow rowMismatch).length = 2 ∧ expandRow rowMismatch ≠ [] := by
  refine ⟨by decide, by decide, ?_, ?_⟩
  · rw [expandRow_length rowMismatch]
    decide
  · have h := expandRow_length rowMismatch
    intro hc
    rw [hc] at h
    revert h
    decide

/-- Amended C4: when the two refund arrays differ in length the script
expands to `min` of the two lengths, pairing the common prefixes, with no
diagnostic; the rest of the batch is unaffected (per-row processing). -/
theorem refund_mismatch_min_expansion (r : InRow) (L M : Nat)
    (hA : (decode_raw_data_hex r.raw_data_hex).refundAmounts.length = L)
    (hB : (decode_raw_data_hex r.raw_data_hex).refundAddresses.length = M)
    (h : 0 < min L M) :
    (expandRow r).length = min L M ∧ ∀ i, i < min L M →
      ∃ row, (expandRow r)[i]? = some row ∧
        row.refundAddress = (decode_raw_data_hex r.raw_data_hex).refundAddresses[i]? ∧
        row.refundAmount = (decode_raw_data_hex r.raw_data_hex).refundAmounts[i]? := by
  constructor
  · rw [expandRow_length r, hA, hB]
    omega
  · intro i hi
    refine ⟨rowOf r (decode_raw_data_hex r.raw_data_hex)
      ((decode_raw_data_hex r.raw_data_hex).refundAddresses[i]?)
      ((decode_raw_data_hex r.raw_data_hex).refundAmounts[i]?), ?_, rfl, rfl⟩
    exact expandRow_getElem r i (by omega)

set_option maxRecDepth 100000 in
/-- Witness for the amended C4 at the concrete mismatched log. -/
theorem refund_mismatch_min_expansion_witness :
    (0:Nat) < min 3 2 ∧ (expandRow rowMismatch).length = min 3 2 :=
  ⟨by norm_num,
   (refund_mismatch_min_expansion rowMismatch 3 2 (by decide) (by decide) (by norm_num)).1⟩

set_option maxRecDepth 100000 in
/-- Counterexample for C7: the corrupt log `rowBad` (data `0x`, shorter
than any slot) is not skipped and produces no diagnostic: it yields one
output row with null decoded fields, and a batch containing it simply
concatenates per-log outputs. -/
theorem batch_isolation_counterexample :
    (expandRow rowBad).length = 1 ∧
    expandRow rowBad = [rowOf rowBad nullRefundDecoded none none] ∧
    (transformRows [rowGood, rowBad]).length = 2 := by
  refine ⟨?_, by decide, by decide⟩
  rw [expandRow_length rowBad]
  decide

/-- Amended C7: a log whose data buffer is shorter than 10 characters
decodes to the null struct and contributes exactly one metadata-preserving
row with null decoded fields; the surrounding batch is processed
unchanged, and no diagnostics exist in the output. -/
theorem batch_null_row_continuation (pre post : List InRow) (b : InRow)
    (hb : b.raw_data_hex.length < 10) :
    transformRows (pre ++ b :: post) =
      transformRows pre ++ rowOf b nullRefundDecoded none none :: transformRows post := by
  unfold transformRows
  rw [List.flatMap_append, List.flatMap_cons]
  have hexp : expandRow b = [rowOf b nullRefundDecoded none none] := by
    unfold expandRow
    rw [show decode_raw_data_hex b.raw_data_hex = nullRefundDecoded by
      unfold decode_raw_data_hex
      rw [if_pos hb]]
    rfl
  rw [hexp]
  rfl

/-- Witness for the amended C7 at a concrete two-log batch. -/
theorem batch_null_row_continuation_witness :
    rowBad.raw_data_hex.length < 10 ∧
    transformRows ([rowGood] ++ rowBad :: []) =
      transformRows [rowGood] ++ rowOf rowBad nullRefundDecoded none none :: transformRows [] :=
  ⟨by decide, batch_null_row_continuation [rowGood] [] rowBad (by decide)⟩

/-- `pySlice` at nonnegative bounds is ordinary take/drop. -/
theorem pySlice_natCast (l : List Char) (a b : Nat) :
    pySlice l (a : Int) (b : Int) = (l.drop a).take (b - a) := by
  unfold pySlice pyIdx
  rw [if_neg (by omega : ¬ ((b : Int) < 0)), if_neg (by omega : ¬ ((a : Int) < 0))]
  have hb : (min (b : Int) (l.length : Int)).toNat = min b l.length := by omega
  have ha : (min (a : Int) (l.length : Int)).toNat = min a l.length := by omega
  rw [hb, ha]
  rcases le_total a l.length with h1 | h1
  · rcases le_total b l.length with h2 | h2
    · rw [min_eq_left h2, min_eq_left h1, List.drop_take]
    · rw [min_eq_right h2, min_eq_left h1, List.take_length,
        List.take_of_length_le (by simp; omega)]
  · rw [min_eq_right h1, List.drop_eq_nil_of_le (by simp [List.length_take]),
      List.drop_eq_nil_of_le (by omega : l.length ≤ a)]
    simp

/-- Unfolding of the uint-array element loop: it returns exactly the
elements that fit entirely in the buffer, capped by the requested count. -/
theorem readUintElems_spec (hexData : List Char) (count : Nat) :
    ∀ base : Nat,
      readUintElems hexData (base : Int) count =
        (List.range (min count ((hexData.length - base) / 64))).map
          (fun i => (pyIntHex ((hexData.drop (base + 64 * i)).take 64)).getD 0) := by
  induction count with
  | zero => intro base; simp [readUintElems]
  | succ k ih =>
    intro base
    by_cases hb : base + 64 ≤ hexData.length
    · have hcond : ¬ ((base : Int) + 64 > (hexData.length : Int)) := by omega
      have hcast : (base : Int) + 64 = ((base + 64 : Nat) : Int) := by push_cast; ring
      have hdiv : (hexData.length - base) / 64 = (hexData.length - (base + 64)) / 64 + 1 := by
        rw [Nat.div_eq (hexData.length - base) 64, if_pos ⟨by norm_num, by omega⟩,
          Nat.sub_sub]
      simp only [readUintElems, if_neg hcond]
      rw [optionMatch_eq_getD, hcast, pySlice_natCast, ih (base + 64), hdiv,
        Nat.succ_min_succ, List.range_succ_eq_map, List.map_cons, List.map_map]
      congr 1
      · have h64 : base + 64 - base = 64 := by omega
        rw [h64]
        simp
      · apply List.map_congr_left
        intro i _
        simp only [Function.comp_apply]
        have harg : base + 64 + 64 * i = base + 64 * (i + 1) := by ring
        rw [harg]
    · have hcond : (base : Int) + 64 > (hexData.length : Int) := by omega
      have hdiv : (hexData.length - base) / 64 = 0 := Nat.div_eq_of_lt (by omega)
      simp only [readUintElems, if_pos hcond]
      rw [hdiv]
      simp

/-- Unfolding of the address-array element loop: every in-range element is
`'0x'` plus the lowercased last 40 characters of its full 64-char chunk. -/
theorem readAddrElems_spec (hexData : List Char) (count : Nat) :
    ∀ base : Nat,
      readAddrElems hexData (base : Int) count =
        (List.range (min count ((hexData.length - base) / 64))).map
          (fun i =>
            '0' :: 'x' :: (((hexData.drop (base + 64 * i + 24)).take 40).map Char.toLower)) := by
  induction count with
  | zero => intro base; simp [readAddrElems]
  | succ k ih =>
    intro base
    by_cases hb : base + 64 ≤ hexData.length
    · have hcond : ¬ ((base : Int) + 64 > (hexData.length : Int)) := by omega
      have hcast : (base : Int) + 64 = ((base + 64 : Nat) : Int) := by push_cast; ring
      have hdiv : (hexData.length - base) / 64 = (hexData.length - (base + 64)) / 64 + 1 := by
        rw [Nat.div_eq (hexData.length - base) 64, if_pos ⟨by norm_num, by omega⟩,
          Nat.sub_sub]
      simp only [readAddrElems, if_neg hcond]
      rw [hcast, pySlice_natCast, ih (base + 64), hdiv,
        Nat.succ_min_succ, List.range_succ_eq_map, List.map_cons, List.map_map]
      congr 1
      · have h64 : base + 64 - base = 64 := by omega
        rw [h64]
        have hlen : ((hexData.drop base).take 64).length = 64 := by
          simp [List.length_take, List.length_drop]
          omega
        rw [hlen]
        have h24 : (64 : Nat) - 40 = 24 := by norm_num
        rw [h24, List.drop_take, List.drop_drop]
      · apply List.map_congr_left
        intro i _
        simp only [Function.comp_apply]
        have harg : base + 64 + 64 * i + 24 = base + 64 * (i + 1) + 24 := by ring
        rw [harg]
    · have hcond : (base : Int) + 64 > (hexData.length : Int) := by omega
      have hdiv : (hexData.length - base) / 64 = 0 := Nat.div_eq_of_lt (by omega)
      simp only [readAddrElems, if_pos hcond]
      rw [hdiv]
      simp

set_option maxRecDepth 100000 in
/-- Counterexample for C5: `dataTrunc` declares a 5-element array but only
holds 3 complete elements; the decoder returns the shortened 3-element
array `[100, 200, 300]` instead of failing (its return type has no error
case at all). -/
theorem truncated_array_counterexample :
    pyIntHex ((dataTrunc.drop 0).take 64) = some 5 ∧
    decode_uint256_array_at_offset dataTrunc 0 = [100, 200, 300] ∧
    (decode_uint256_array_at_offset dataTrunc 0).length = 3 := by decide

/-- Amended C5: when the declared length `L` exceeds the number of
complete 64-char elements remaining, both dynamic-array decoders silently
return the prefix of elements that fit (length `min L available`), never
an error, and processing continues per log. -/
theorem truncated_array_shortened (hexData : List Char) (o L : Nat)
    (hbound : 2 * o + 64 ≤ hexData.length)
    (hparse : pyIntHex ((hexData.drop (2 * o)).take 64) = some ((L : Nat) : Int)) :
    decode_uint256_array_at_offset hexData ((o : Nat) : Int) =
      (List.range (min L ((hexData.length - (2 * o + 64)) / 64))).map
        (fun i => (pyIntHex ((hexData.drop (2 * o + 64 + 64 * i)).take 64)).getD 0) ∧
    (decode_uint256_array_at_offset hexData ((o : Nat) : Int)).length =
      min L ((hexData.length - (2 * o + 64)) / 64) ∧
    decode_address_array_at_offset hexData ((o : Nat) : Int) =
      (List.range (min L ((hexData.length - (2 * o + 64)) / 64))).map
        (fun i =>
          '0' :: 'x' :: (((hexData.drop (2 * o + 64 + 64 * i + 24)).take 40).map Char.toLower)) ∧
    (decode_address_array_at_offset hexData ((o : Nat) : Int)).length =
      min L ((hexData.length - (2 * o + 64)) / 64) := by
  have hco : ((o : Nat) : Int) * 2 = ((2 * o : Nat) : Int) := by push_cast; ring
  have hcast : ((2 * o : Nat) : Int) + 64 = ((2 * o + 64 : Nat) : Int) := by push_cast; ring
  have hg1 : ¬ (((2 * o : Nat) : Int) ≥ (hexData.length : Int)) := by omega
  have hg2 : ¬ (((2 * o : Nat) : Int) + 64 > (hexData.length : Int)) := by omega
  have hsl : pySlice hexData ((2 * o : Nat) : Int) (((2 * o : Nat) : Int) + 64) =
      (hexData.drop (2 * o)).take 64 := by
    rw [hcast, pySlice_natCast]
    congr 1
    omega
  have keyU : decode_uint256_array_at_offset hexData ((o : Nat) : Int) =
      readUintElems hexData ((2 * o + 64 : Nat) : Int) L := by
    unfold decode_uint256_array_at_offset
    rw [hco, if_neg hg1, if_neg hg2, hsl, hparse]
    show (if ((L : Nat) : Int) < 0 then []
      else readUintElems hexData (((2 * o : Nat) : Int) + 64) ((L : Nat) : Int).toNat) = _
    rw [if_neg (by omega : ¬ (((L : Nat) : Int) < 0)), hcast, Int.toNat_natCast]
  have keyA : decode_address_array_at_offset hexData ((o : Nat) : Int) =
      readAddrElems hexData ((2 * o + 64 : Nat) : Int) L := by
    unfold decode_address_array_at_offset
    rw [hco, if_neg hg1, if_neg hg2, hsl, hparse]
    show (if ((L : Nat) : Int) < 0 then []
      else readAddrElems hexData (((2 * o : Nat) : Int) + 64) ((L : Nat) : Int).toNat) = _
    rw [if_neg (by omega : ¬ (((L : Nat) : Int) < 0)), hcast, Int.toNat_natCast]
  rw [keyU, keyA, readUintElems_spec, readAddrElems_spec]
  refine ⟨rfl, by simp, rfl, by simp⟩

set_option maxRecDepth 100000 in
/-- Witness for the amended C5 at `dataTrunc`: declared length 5, three
complete elements available, decoded length `min 5 3 = 3`. -/
theorem truncated_array_shortened_witness :
    (2 * 0 + 64 ≤ dataTrunc.length) ∧
    (decode_uint256_array_at_offset dataTrunc ((0 : Nat) : Int)).length =
      min 5 ((dataTrunc.length - (2 * 0 + 64)) / 64) :=
  ⟨by decide, (truncated_array_shortened dataTrunc 0 5 (by decide) (by decide)).2.1⟩

/-- Claim C3: the event kind produced by `decode_data` is a pure function
of `topic_0` (identical `topic_0`, arbitrary different `data` payloads give
the same kind), and an unrecognized `topic_0` yields the unknown kind with
a null decoded struct for every `data` payload, malformed or not — body
decoding contributes nothing to the result. -/
theorem classification_pure_topic0 (sig : SigTable) (t0 d1 d2 : List Char) :
    kindOfData (decode_data sig t0 d1) = kindOfData (decode_data sig t0 d2) ∧
    kindOfData (decode_data sig t0 d1) = classifyTopic0 sig t0 ∧
    ((t0 ≠ sig.filledRelay ∧ t0 ≠ sig.fundsDeposited ∧ t0 ≠ sig.executedRelayerRefundRoot) →
      decode_data sig t0 d1 = none ∧ classifyTopic0 sig t0 = .unknown) := by
  by_cases h1 : t0 = sig.filledRelay <;>
    by_cases h2 : t0 = sig.fundsDeposited <;>
      by_cases h3 : t0 = sig.executedRelayerRefundRoot <;>
        simp [decode_data, classifyTopic0, kindOfData, h1, h2, h3] <;>
          split_ifs <;> simp [kindOfData]

/-- Witness for C3 at a concrete unknown signature. -/
theorem classification_pure_topic0_witness :
    decode_data sigSample ("0x9999".toList) dataRefund3 = none ∧
    classifyTopic0 sigSample ("0x9999".toList) = .unknown :=
  (classification_pure_topic0 sigSample ("0x9999".toList) dataRefund3 dataBigAmount).2.2
    ⟨by decide, by decide, by decide⟩

set_option maxRecDepth 1000000 in
/-- Claim C2 is violated by the code (`code_bug`): the etherscan transform
emits amounts as `Float64`.  At `inputAmount = 2^53 + 1` the slot's exact
u256 value is 9007199254740993, but `_slot_as_int` (and hence the
FilledRelay struct) yields the rounded 9007199254740992; likewise
`_decode_executed_refund_data` passes `amountToReturn` through `float()`.
The exact value is not representable, so the emitted amount is wrong by 1. -/
theorem amount_float64_precision_loss :
    hexListVal (polarsSlice dataBigAmount (2 + 2 * 64) 64) = 9007199254740993 ∧
    (build_filled_relay_struct dataBigAmount).input_amount = 9007199254740992 ∧
    hexListVal ((dataBigReturn.drop 2).take 64) = 9007199254740993 ∧
    (decode_executed_refund_data dataBigReturn).amount_to_return = some 9007199254740992 ∧
    (9007199254740992 : Nat) ≠ 9007199254740993 := by decide

/-- Claim C8: the FundsDeposited decoder treats slot 9 as a byte offset to
a length-prefixed dynamic `bytes` value: it reads the 32-byte length word
at that offset and then exactly `length` raw bytes, uninterpreted; a
declared length of zero yields the script's absent-message sentinel rather
than an error. -/
theorem funds_deposited_message_decode (hexData : List Char) (off L : Nat)
    (hlen : 640 ≤ hexData.length)
    (hoff : pyIntHex ((hexData.drop 576).take 64) = some ((off : Nat) : Int))
    (hLbound : 2 * off + 64 ≤ hexData.length)
    (hL : pyIntHex ((hexData.drop (2 * off)).take 64) = some ((L : Nat) : Int)) :
    (L = 0 → decode_message hexData = noMessageSentinel) ∧
    (0 < L → 2 * off + 64 + 2 * L ≤ hexData.length →
      decode_message hexData = '0' :: 'x' :: ((hexData.drop (2 * off + 64)).take (2 * L))) := by
  have hchunk : get_chunk hexData 9 = some ((hexData.drop 576).take 64) := by
    unfold get_chunk
    rw [if_pos (by omega : 9 * 64 + 64 ≤ hexData.length)]
  have hchunklen : ((hexData.drop 576).take 64).length = 64 := by
    simp [List.length_take, List.length_drop]
    omega
  have hchunkne : ((hexData.drop 576).take 64) ≠ [] := by
    intro hc
    rw [hc] at hchunklen
    simp at hchunklen
  have hguard1 : ¬ (((off : Nat) : Int) * 2 ≥ (hexData.length : Int)) := by omega
  have hslice1 : pySlice hexData (((off : Nat) : Int) * 2) ((((off : Nat) : Int) * 2) + 64) =
      (hexData.drop (2 * off)).take 64 := by
    have e1 : ((off : Nat) : Int) * 2 = ((2 * off : Nat) : Int) := by push_cast; ring
    have e2 : (((off : Nat) : Int) * 2) + 64 = ((2 * off + 64 : Nat) : Int) := by push_cast; ring
    rw [e2, e1, pySlice_natCast]
    congr 1
    omega
  have hlenhex : ((hexData.drop (2 * off)).take 64).length = 64 := by
    simp [List.length_take, List.length_drop]
    omega
  have hguardlen : ¬ (((hexData.drop (2 * off)).take 64).length < 64) := by omega
  constructor
  · intro h0
    subst h0
    simp only [decode_message, hchunk, if_neg hchunkne, hoff, if_neg hguard1, hslice1,
      if_neg hguardlen, hL]
    norm_num
  · intro hpos hbound2
    have hLne : ¬ (((L : Nat) : Int) = 0) := by omega
    have hslice2 : pySlice hexData (((off : Nat) : Int) * 2 + 64)
        (((off : Nat) : Int) * 2 + 64 + ((L : Nat) : Int) * 2) =
        (hexData.drop (2 * off + 64)).take (2 * L) := by
      have e3 : ((off : Nat) : Int) * 2 + 64 = ((2 * off + 64 : Nat) : Int) := by push_cast; ring
      have e4 : ((off : Nat) : Int) * 2 + 64 + ((L : Nat) : Int) * 2 =
          ((2 * off + 64 + 2 * L : Nat) : Int) := by push_cast; ring
      rw [e4, e3, pySlice_natCast]
      congr 1
      omega
    have hmne : (hexData.drop (2 * off + 64)).take (2 * L) ≠ [] := by
      have : ((hexData.drop (2 * off + 64)).take (2 * L)).length = 2 * L := by
        simp [List.length_take, List.length_drop]
        omega
      intro hc
      rw [hc] at this
      simp at this
      omega
    simp only [decode_message, hchunk, if_neg hchunkne, hoff, if_neg hguard1, hslice1,
      if_neg hguardlen, hL, if_neg hLne, hslice2, if_neg hmne]

set_option maxRecDepth 100000 in
/-- Witness for C8 at `dataMessage`: offset 320 and length 3 satisfy every
hypothesis, and the decoder returns exactly the six hex characters of the
three message bytes. -/
theorem funds_deposited_message_decode_witness :
    (0:Nat) < 3 ∧
    decode_message dataMessage = '0' :: 'x' :: ((dataMessage.drop (2 * 320 + 64)).take (2 * 3)) :=
  ⟨by norm_num,
   (funds_deposited_message_decode dataMessage 320 3 (by decide) (by decide) (by decide)
      (by decide)).2 (by norm_num) (by decide)⟩

/-- Counterexample for C9: on a 40-character string of the non-hex letter
`z`, `decode_topic_address` does not return `None`: it returns the junk
address string `0x` + the 40 `z`s, because it never validates hex digits. -/
theorem topic_decoder_counterexample :
    decode_topic_address (.str (List.replicate 40 'z')) =
      some ('0' :: 'x' :: List.replicate 40 'z') ∧
    (∀ c ∈ List.replicate 40 'z', isHexDigitB c = false) := by decide

/-- Amended C9: both topic decoders are total (no exception): they return
`None` on NaN and on the empty string; `decode_topic_uint256` returns
`None` on any string whose characters are not hex digits (nor sign,
underscore or whitespace characters); but `decode_topic_address` validates
nothing — on any stripped, prefix-free string of at least 40 characters it
returns `0x` plus the lowercased last 40 characters, hex or not. -/
theorem topic_decoders_total :
    decode_topic_uint256 .nan = none ∧ decode_topic_address .nan = none ∧
    decode_topic_uint256 (.str []) = none ∧ decode_topic_address (.str []) = none ∧
    (∀ s : List Char, s ≠ [] → pyStrip s = s →
      (∀ c ∈ s, isHexDigitB c = false ∧ c ≠ '_' ∧ c ≠ '+' ∧ c ≠ '-') →
      decode_topic_uint256 (.str s) = none) ∧
    (∀ s : List Char, s ≠ [] → pyStrip s = s → strip0x s = s → 40 ≤ s.length →
      decode_topic_address (.str s) =
        some ('0' :: 'x' :: ((s.drop (s.length - 40)).map Char.toLower))) := by
  refine ⟨rfl, rfl, rfl, rfl, ?_, ?_⟩
  · intro s hne hstrip hchars
    rcases s with _ | ⟨c, rest⟩
    · exact absurd rfl hne
    obtain ⟨hc, hcu, hcp, hcm⟩ := hchars c (List.mem_cons_self c rest)
    have hc0 : c ≠ '0' := by
      intro h
      rw [h] at hc
      exact absurd hc (by decide)
    have hstrip0 : strip0x (c :: rest) = c :: rest := by
      unfold strip0x
      split
      · rename_i heq
        injection heq with h1 h2
        exact absurd h1 hc0
      · rfl
    have hmag : pyIntHexMag (c :: rest) = none := by
      rcases rest with _ | ⟨c1, rest2⟩
      · simp [pyIntHexMag, hexBody, hc]
      · simp [pyIntHexMag, hexBody, hc, hc0]
    have hint : pyIntHex (c :: rest) = none := by
      simp [pyIntHex, hcp, hcm, hmag]
    simp only [decode_topic_uint256]
    rw [if_neg hne]
    simp [hstrip, hstrip0, hint]
  · intro s hne hstrip h0x h40
    have h40n : ¬ (s.length < 40) := by omega
    simp only [decode_topic_address]
    rw [if_neg hne]
    simp [hstrip, h0x, h40n]

/-- Witness for the amended C9 on concrete junk inputs. -/
theorem topic_decoders_total_witness :
    decode_topic_uint256 (.str (List.replicate 2 'z')) = none ∧
    decode_topic_address (.str (List.replicate 41 'w')) =
      some ('0' :: 'x' :: (((List.replicate 41 'w').drop ((List.replicate 41 'w').length - 40)).map
        Char.toLower)) :=
  ⟨topic_decoders_total.2.2.2.2.1 (List.replicate 2 'z') (by decide) (by decide) (by decide),
   topic_decoders_total.2.2.2.2.2 (List.replicate 41 'w') (by decide) (by decide) (by decide)
     (by decide)⟩

/-- Every hex digit has value below 16. -/
theorem hexVal_lt_16 (c : Char) : hexVal c < 16 := by
  unfold hexVal
  split_ifs with h1 h2 h3 <;> simp_all [Bool.and_eq_true, decide_eq_true_eq] <;> omega

/-- A hex digit is none of the grammar's special characters. -/
theorem isHexDigitB_ne (c : Char) (h : isHexDigitB c = true) :
    c ≠ '_' ∧ c ≠ '+' ∧ c ≠ '-' ∧ c ≠ 'x' ∧ c ≠ 'X' := by
  refine ⟨?_, ?_, ?_, ?_, ?_⟩ <;> intro hc <;> rw [hc] at h <;> exact absurd h (by decide)

/-- A string of hex digits satisfies the digit-group tail grammar. -/
theorem hexBodyAux_of_hex (l : List Char) (h : ∀ c ∈ l, isHexDigitB c = true) :
    hexBodyAux l = true := by
  induction l with
  | nil => rfl
  | cons c rest ih =>
    have hc := h c (List.mem_cons_self c rest)
    have hcu := (isHexDigitB_ne c hc).1
    have hrest := ih (fun x hx => h x (List.mem_cons_of_mem c hx))
    rw [hexBodyAux.eq_def]
    simp [hcu, hc, hrest]

/-- A nonempty string of hex digits is a valid digit group. -/
theorem hexBody_of_hex (l : List Char) (hne : l ≠ []) (h : ∀ c ∈ l, isHexDigitB c = true) :
    hexBody l = true := by
  rcases l with _ | ⟨c, rest⟩
  · exact absurd rfl hne
  simp only [hexBody]
  rw [h c (List.mem_cons_self c rest),
    hexBodyAux_of_hex rest (fun x hx => h x (List.mem_cons_of_mem c hx))]
  rfl

/-- Filtering underscores is the identity on hex-digit strings. -/
theorem filter_underscore_of_hex (l : List Char) (h : ∀ c ∈ l, isHexDigitB c = true) :
    l.filter (fun c => c ≠ '_') = l := by
  apply List.filter_eq_self.mpr
  intro a ha
  have := (isHexDigitB_ne a (h a ha)).1
  simp [this]

/-- `int(-, 16)`'s magnitude parse of a pure hex-digit string is its
big-endian value. -/
theorem pyIntHexMag_of_hex (l : List Char) (hne : l ≠ []) (h : ∀ c ∈ l, isHexDigitB c = true) :
    pyIntHexMag l = some (hexListVal l) := by
  rcases l with _ | ⟨c0, _ | ⟨c1, rest⟩⟩
  · exact absurd rfl hne
  · have hb : hexBody [c0] = true := hexBody_of_hex _ (by simp) h
    simp only [pyIntHexMag]
    rw [if_pos hb, filter_underscore_of_hex _ h]
  · have hx := isHexDigitB_ne c1 (h c1 (by simp))
    have hcond : ¬ (c0 = '0' ∧ (c1 = 'x' ∨ c1 = 'X')) := by
      rintro ⟨-, h2 | h2⟩
      exacts [hx.2.2.2.1 h2, hx.2.2.2.2 h2]
    have hb : hexBody (c0 :: c1 :: rest) = true := hexBody_of_hex _ (by simp) h
    simp only [pyIntHexMag]
    rw [if_neg hcond, if_pos hb, filter_underscore_of_hex _ h]

/-- `int(-, 16)` on a pure hex-digit string succeeds with its value. -/
theorem pyIntHex_of_hex (l : List Char) (hne : l ≠ []) (h : ∀ c ∈ l, isHexDigitB c = true) :
    pyIntHex l = some ((hexListVal l : Nat) : Int) := by
  rcases l with _ | ⟨c, t⟩
  · exact absurd rfl hne
  have hc := isHexDigitB_ne c (h c (by simp))
  simp only [pyIntHex]
  rw [if_neg hc.2.1, if_neg hc.2.2.1, pyIntHexMag_of_hex _ (by simp) h]
  rfl

/-- The scripts' `decode_uint256` never fails on a nonempty hex word. -/
theorem decode_uint256_of_hex (w : List Char) (hne : w ≠ []) (h : ∀ c ∈ w, isHexDigitB c = true) :
    decode_uint256 (some w) = some ((hexListVal w : Nat) : Int) := by
  simp only [decode_uint256]
  rw [if_neg hne, pyIntHex_of_hex w hne h]

/-- Accumulator bound for the big-endian fold over hex digits. -/
theorem hexListVal_aux_lt (l : List Char) :
    ∀ a : Nat, l.foldl (fun x c => 16 * x + hexVal c) a < (a + 1) * 16 ^ l.length := by
  induction l with
  | nil => intro a; simp
  | cons c rest ih =>
    intro a
    simp only [List.foldl_cons, List.length_cons]
    have h1 := ih (16 * a + hexVal c)
    have h2 : hexVal c < 16 := hexVal_lt_16 c
    have h3 : (16 * a + hexVal c + 1) * 16 ^ rest.length ≤ ((a + 1) * 16) * 16 ^ rest.length :=
      Nat.mul_le_mul_right _ (by omega)
    have h4 : ((a + 1) * 16) * 16 ^ rest.length = (a + 1) * 16 ^ (rest.length + 1) := by ring
    omega

/-- Big-endian value bound: a string of `n` hex chars is below `16^n`. -/
theorem hexListVal_lt (l : List Char) : hexListVal l < 16 ^ l.length := by
  simpa [hexListVal] using hexListVal_aux_lt l 0

/-- The hex digit character of `m < 16` has value `m`. -/
theorem hexVal_hexDigitOfNat (m : Nat) (h : m < 16) : hexVal (hexDigitOfNat m) = m := by
  interval_cases m <;> decide

/-- The hex digit character of `m < 16` is a hex digit. -/
theorem isHexDigitB_hexDigitOfNat (m : Nat) (h : m < 16) :
    isHexDigitB (hexDigitOfNat m) = true := by
  interval_cases m <;> decide

/-- The fuel-bounded digit expansion emits at most `fuel` characters. -/
theorem natHexDigitsAux_length (f : Nat) : ∀ n : Nat, (natHexDigitsAux f n).length ≤ f := by
  induction f with
  | zero => intro n; exact le_rfl
  | succ k ih =>
    intro n
    rw [show natHexDigitsAux (k + 1) n =
      (if n = 0 then [] else natHexDigitsAux k (n / 16) ++ [hexDigitOfNat (n % 16)]) from rfl]
    by_cases h0 : n = 0
    · simp [h0]
    · rw [if_neg h0]
      simp only [List.length_append, List.length_cons, List.length_nil]
      have := ih (n / 16)
      omega

/-- Every character the digit expansion emits is a hex digit. -/
theorem natHexDigitsAux_mem (f : Nat) : ∀ n : Nat, ∀ c ∈ natHexDigitsAux f n,
    isHexDigitB c = true := by
  induction f with
  | zero => intro n c hc; exact (List.not_mem_nil c hc).elim
  | succ k ih =>
    intro n c hc
    rw [show natHexDigitsAux (k + 1) n =
      (if n = 0 then [] else natHexDigitsAux k (n / 16) ++ [hexDigitOfNat (n % 16)]) from rfl]
      at hc
    by_cases h0 : n = 0
    · rw [if_pos h0] at hc
      exact (List.not_mem_nil c hc).elim
    · rw [if_neg h0, List.mem_append] at hc
      rcases hc with hc | hc
      · exact ih (n / 16) c hc
      · simp at hc
        rw [hc]
        exact isHexDigitB_hexDigitOfNat _ (Nat.mod_lt _ (by norm_num))

/-- Appending one digit multiplies the big-endian value by 16. -/
theorem hexListVal_append_digit (l : List Char) (c : Char) :
    hexListVal (l ++ [c]) = 16 * hexListVal l + hexVal c := by
  simp [hexListVal, List.foldl_append]

/-- With enough fuel the digit expansion is a right inverse of the
big-endian value. -/
theorem hexListVal_natHexDigitsAux (f : Nat) : ∀ n : Nat, n < 16 ^ f →
    hexListVal (natHexDigitsAux f n) = n := by
  induction f with
  | zero =>
    intro n h
    have : n = 0 := by
      have : (16 : Nat) ^ 0 = 1 := by norm_num
      omega
    subst this
    rfl
  | succ k ih =>
    intro n h
    rw [show natHexDigitsAux (k + 1) n =
      (if n = 0 then [] else natHexDigitsAux k (n / 16) ++ [hexDigitOfNat (n % 16)]) from rfl]
    by_cases h0 : n = 0
    · simp [hexListVal, h0]
    · rw [if_neg h0]
      have hdiv : n / 16 < 16 ^ k := by
        apply Nat.div_lt_of_lt_mul
        rw [← pow_succ']
        exact h
      rw [hexListVal_append_digit, ih (n / 16) hdiv,
        hexVal_hexDigitOfNat _ (Nat.mod_lt _ (by norm_num))]
      exact Nat.div_add_mod n 16

/-- Leading zero characters do not change the big-endian value. -/
theorem hexListVal_replicate_zero (k : Nat) (l : List Char) :
    hexListVal (List.replicate k '0' ++ l) = hexListVal l := by
  induction k with
  | zero => simp
  | succ m ih =>
    simp only [List.replicate_succ, List.cons_append]
    calc hexListVal ('0' :: (List.replicate m '0' ++ l))
        = (List.replicate m '0' ++ l).foldl (fun a c => 16 * a + hexVal c) 0 := by
          simp [hexListVal, List.foldl_cons, show hexVal '0' = 0 from by decide]
      _ = hexListVal l := ih

/-- The canonical encoding always spans exactly 64 characters. -/
theorem encode_u256_length (v : Nat) : (encode_u256 v).length = 64 := by
  unfold encode_u256
  have := natHexDigitsAux_length 64 v
  simp only [List.length_append, List.length_replicate]
  omega

/-- The canonical encoding consists of hex digits only. -/
theorem encode_u256_mem (v : Nat) : ∀ c ∈ encode_u256 v, isHexDigitB c = true := by
  intro c hc
  unfold encode_u256 at hc
  rw [List.mem_append] at hc
  rcases hc with hc | hc
  · rw [List.eq_of_mem_replicate hc]
    decide
  · exact natHexDigitsAux_mem 64 v c hc

/-- Decoding the canonical encoding recovers the value exactly. -/
theorem hexListVal_encode (v : Nat) (h : v < 2 ^ 256) : hexListVal (encode_u256 v) = v := by
  unfold encode_u256
  rw [hexListVal_replicate_zero]
  exact hexListVal_natHexDigitsAux 64 v (by
    have h16 : (16 : Nat) ^ 64 = 2 ^ 256 := by norm_num
    omega)

/-- Claim C6: `decode_uint256` reads a 32-byte word as an exact big-endian
unsigned 256-bit integer: decoding the canonical 64-hex-char encoding of
any `V < 2^256` returns exactly `V` (including values needing more than 53
bits), and every 64-character hex word decodes without error to its
big-endian value, which is below `2^256`. -/
theorem decode_u256_roundtrip_total :
    (∀ V : Nat, V < 2 ^ 256 →
      decode_uint256 (some (encode_u256 V)) = some ((V : Nat) : Int) ∧
      (encode_u256 V).length = 64) ∧
    (∀ w : List Char, w.length = 64 → (∀ c ∈ w, isHexDigitB c = true) →
      decode_uint256 (some w) = some ((hexListVal w : Nat) : Int) ∧
      hexListVal w < 2 ^ 256) := by
  constructor
  · intro V hV
    have hlen := encode_u256_length V
    have hne : encode_u256 V ≠ [] := by
      intro hnil
      rw [hnil] at hlen
      simp at hlen
    refine ⟨?_, hlen⟩
    rw [decode_uint256_of_hex _ hne (encode_u256_mem V), hexListVal_encode V hV]
  · intro w hlen hhex
    have hne : w ≠ [] := by
      intro hnil
      rw [hnil] at hlen
      simp at hlen
    refine ⟨decode_uint256_of_hex w hne hhex, ?_⟩
    have hb := hexListVal_lt w
    rw [hlen] at hb
    have h16 : (16 : Nat) ^ 64 = 2 ^ 256 := by norm_num
    omega

set_option maxRecDepth 1000000 in
/-- Witness for C6 at the extreme value `2^256 - 1` (all `f` characters),
well above the 53-bit double-precision limit. -/
theorem decode_u256_roundtrip_total_witness :
    decode_uint256 (some (encode_u256 (2 ^ 256 - 1))) = some (((2 ^ 256 - 1 : Nat) : Int)) :=
  (decode_u256_roundtrip_total.1 (2 ^ 256 - 1) (by norm_num)).1
